import Mathlib

/-!
# Verification of the CPU micro-architecture detection module

A shallow embedding, in Lean 4, of `lib/spack/llnl/util/cpu.py`: the
`MicroArchitecture` value class, the knowledge-base loader, the raw CPU
descriptor collectors, the per-family compatibility testers, and the host
selector `detect_host`.  Python's partial operations (dict subscripts,
attribute access, assertions, regular-expression match methods) are modelled
with an explicit `Except PyErr` result; machine-dependent effects (reading
`/proc/cpuinfo`, running `sysctl`) are passed in as explicit arguments.
-/

set_option maxHeartbeats 1000000

namespace SpackCpu

/-- Python exceptions that the embedded code can raise. -/
inductive PyErr where
  /-- `KeyError`: a dict subscript `d[k]` with `k` absent. -/
  | keyError (key : String)
  /-- `TypeError`, e.g. an unsupported binary operation. -/
  | typeError (msg : String)
  /-- `AttributeError`: attribute lookup failed on an object of the named type. -/
  | attributeError (objType attr : String)
  /-- `IndexError`: sequence subscript out of range. -/
  | indexError
  /-- `AssertionError`: a failed `assert` statement. -/
  | assertionError
  /-- `RecursionError`: Python's recursion-depth limit was exceeded. -/
  | recursionError
deriving DecidableEq

/-- Boolean "is an error" test for `Except` results. -/
def isErr {ε α : Type} : Except ε α → Bool
  | Except.error _ => true
  | Except.ok _ => false

/-- The `MicroArchitecture` value class.  `ancestors` is stored at
construction time, exactly as `__init__` stores `self.ancestors`; the
remaining fields mirror the attributes set by `__init__`.  `features` is a
Python set of flag strings (modelled as a list compared with set semantics),
`compilers` a dict (modelled as an association list compared with dict
semantics). -/
structure MicroArchitecture where
  name : String
  parents : List MicroArchitecture
  ancestors : List MicroArchitecture
  vendor : String
  features : List String
  compilers : List (String × String)
  generation : Nat

/-- Python set inclusion `l1.issubset(l2)` for sets of strings. -/
def strSetSubset (l1 l2 : List String) : Bool :=
  l1.all (fun x => l2.contains x)

/-- Python set equality for sets of strings: mutual inclusion. -/
def strSetEq (l1 l2 : List String) : Bool :=
  strSetSubset l1 l2 && strSetSubset l2 l1

/-- Python dict equality for string-valued dicts: same keys, same values,
insertion order ignored. -/
def strDictEq (d1 d2 : List (String × String)) : Bool :=
  d1.all (fun kv => d2.lookup kv.1 == some kv.2) &&
  d2.all (fun kv => d1.lookup kv.1 == some kv.2)

mutual

/-- `MicroArchitecture.__eq__`: structural comparison of `name`, `vendor`,
`features` (set equality), `ancestors` (Python list equality, elementwise
`__eq__`), `compilers` (dict equality) and `generation`.  `parents` is not
compared. -/
def pyEq : MicroArchitecture → MicroArchitecture → Bool
  | ⟨n1, _, a1, v1, f1, c1, g1⟩, ⟨n2, _, a2, v2, f2, c2, g2⟩ =>
    n1 == n2 && v1 == v2 && strSetEq f1 f2 &&
    pyEqList a1 a2 && strDictEq c1 c2 && g1 == g2

/-- Python list equality for lists of `MicroArchitecture`: same length,
elements equal under `__eq__`. -/
def pyEqList : List MicroArchitecture → List MicroArchitecture → Bool
  | [], [] => true
  | a :: as', b :: bs' => pyEq a b && pyEqList as' bs'
  | _, _ => false

end

/-- Python membership `el in l` on a list of `MicroArchitecture`: some list
item compares equal (item `__eq__` el) to the needle. -/
def pyIn (el : MicroArchitecture) (l : List MicroArchitecture) : Bool :=
  l.any (fun item => pyEq item el)

/-- The `self.ancestors` computation in `MicroArchitecture.__init__`: start
from a copy of `parents`, then for each parent in order append those of the
parent's `ancestors` that are not already present (membership tested with
Python `in`, i.e. `__eq__`). -/
def computeAncestors (parents : List MicroArchitecture) : List MicroArchitecture :=
  parents.foldl
    (fun acc parent => acc ++ parent.ancestors.filter (fun a => !(pyIn a acc)))
    parents

/-- `MicroArchitecture.__init__(name, parents, vendor, features, compilers,
generation)`: stores all arguments and the computed `ancestors`. -/
def MicroArchitecture.init (name : String) (parents : List MicroArchitecture)
    (vendor : String) (features : List String)
    (compilers : List (String × String)) (generation : Nat) :
    MicroArchitecture :=
  ⟨name, parents, computeAncestors parents, vendor, features, compilers,
    generation⟩

/-- `create_generic_march(name)`: a generic micro-architecture with no
parents, vendor `"generic"`, no features, no compilers, generation 0. -/
def create_generic_march (name : String) : MicroArchitecture :=
  MicroArchitecture.init name [] "generic" [] [] 0

/-- `MicroArchitecture._ensure_strictly_orderable`: raises `TypeError` when
neither target is among the other's ancestors.  (The source defines this
helper but, as established below, never wires it into any comparison
operator.) -/
def ensure_strictly_orderable (self other : MicroArchitecture) :
    Except PyErr Unit :=
  if pyIn self other.ancestors || pyIn other self.ancestors then
    Except.ok ()
  else
    Except.error (PyErr.typeError "There is no ordering relationship")

/-- The four Python ordering comparisons. -/
inductive CmpOp where
  | lt
  | le
  | gt
  | ge
deriving DecidableEq

/-- Rich-comparison dispatch for the `MicroArchitecture` class: the class
body defines `__init__`, `_ensure_strictly_orderable`, `__eq__`, `__repr__`,
`__str__` and `architecture_family`, and no `__lt__`, `__le__`, `__gt__` or
`__ge__`; hence none of the four ordering operators has an implementation. -/
def orderingMethod : CmpOp →
    Option (MicroArchitecture → MicroArchitecture → Except PyErr Bool)
  | CmpOp.lt => none
  | CmpOp.le => none
  | CmpOp.gt => none
  | CmpOp.ge => none

/-- Evaluation of `a < b`, `a <= b`, `a > b`, `a >= b` between two
`MicroArchitecture` values: Python looks up the corresponding dunder method
(and its reflection, also absent here) and raises `TypeError` ("unsupported
operand type(s)") when neither exists. -/
def pyCompare (op : CmpOp) (a b : MicroArchitecture) : Except PyErr Bool :=
  match orderingMethod op with
  | some impl => impl a b
  | none =>
      Except.error (PyErr.typeError "unsupported operand type(s) for comparison")

/-- The list comprehension in `architecture_family`:
`[x for x in [self] + self.ancestors if not x.ancestors]`. -/
def rootsOf (self : MicroArchitecture) : List MicroArchitecture :=
  (self :: self.ancestors).filter (fun x => x.ancestors.isEmpty)

/-- `MicroArchitecture.architecture_family`: asserts that exactly one
parentless node occurs in `[self] + self.ancestors` and returns it
(`roots.pop()` on a singleton); any other count fails the `assert`. -/
def architecture_family (self : MicroArchitecture) :
    Except PyErr MicroArchitecture :=
  match rootsOf self with
  | [r] => Except.ok r
  | _ => Except.error PyErr.assertionError

/-- A Python operand for `==`: either another `MicroArchitecture` or a value
of an unrelated type such as `str`, which has none of the entity
attributes. -/
inductive PyValue where
  | ma (m : MicroArchitecture)
  | str (s : String)

/-- Dynamic evaluation of `m == other`.  The body of `__eq__` begins with
`self.name == other.name`, so the attribute `name` is read from `other`
unconditionally; on a `str` operand, which has no attribute `name`, that
first read raises `AttributeError` before any comparison happens.  On a
`MicroArchitecture` operand every attribute read succeeds and the result is
the structural comparison `pyEq`. -/
def pyEqValue (self : MicroArchitecture) (other : PyValue) : Except PyErr Bool :=
  match other with
  | PyValue.ma m => Except.ok (pyEq self m)
  | PyValue.str _ => Except.error (PyErr.attributeError "str" "name")

/-- Python `str.strip()`: remove leading and trailing whitespace. -/
def pyStrip (s : String) : String :=
  ⟨((s.data.dropWhile Char.isWhitespace).reverse.dropWhile
      Char.isWhitespace).reverse⟩

/-- Python `str.lower()`. -/
def pyLower (s : String) : String :=
  ⟨s.data.map Char.toLower⟩

/-- Token accumulator for `pySplitWS`; `acc` holds the current token
reversed. -/
def splitWSAux : List Char → List Char → List String
  | acc, [] => if acc.isEmpty then [] else [⟨acc.reverse⟩]
  | acc, c :: rest =>
    if c.isWhitespace then
      if acc.isEmpty then splitWSAux [] rest
      else String.mk acc.reverse :: splitWSAux [] rest
    else splitWSAux (c :: acc) rest

/-- Python `str.split()` with no argument: split on runs of whitespace,
producing no empty tokens. -/
def pySplitWS (s : String) : List String :=
  splitWSAux [] s.data

/-- Substring search on character lists. -/
def charListContains (needle : List Char) : List Char → Bool
  | [] => needle.isEmpty
  | c :: rest => needle.isPrefixOf (c :: rest) || charListContains needle rest

/-- Python substring membership `needle in hay` for strings. -/
def pyContains (hay needle : String) : Bool :=
  charListContains needle.data hay.data

/-- Helper for `pyPartition`; `acc` holds the scanned prefix reversed. -/
def partitionAux (acc : List Char) : List Char → String × String
  | [] => (⟨acc.reverse⟩, "")
  | c :: rest =>
    if c = ':' then (⟨acc.reverse⟩, ⟨rest⟩) else partitionAux (c :: acc) rest

/-- Python `line.partition(':')`, keeping the parts before and after the
first colon (the whole line and `""` when there is no colon). -/
def pyPartition (s : String) : String × String :=
  partitionAux [] s.data

/-- Python dict subscript assignment `d[k] = v`: replace the value in place
when the key exists, preserving insertion order, else append. -/
def dictSet {α : Type} : List (String × α) → String → α → List (String × α)
  | [], k, v => [(k, v)]
  | (k', v') :: rest, k, v =>
    if k' == k then (k, v) :: rest else (k', v') :: dictSet rest k v

/-- Python `d.get(k, dflt)`. -/
def dictGetD {α : Type} (d : List (String × α)) (k : String) (dflt : α) : α :=
  match d.lookup k with
  | some v => v
  | none => dflt

/-- Python dict subscript `d[k]`: `KeyError` when the key is absent. -/
def dictGetExc {α : Type} (d : List (String × α)) (k : String) :
    Except PyErr α :=
  match d.lookup k with
  | some v => Except.ok v
  | none => Except.error (PyErr.keyError k)

/-- Python `k in d` for a dict. -/
def containsKey {α : Type} (d : List (String × α)) (k : String) : Bool :=
  d.any (fun kv => kv.1 == k)

/-- The registry type: an ordered dict from names to entities. -/
abbrev Targets : Type := List (String × MicroArchitecture)

/-- `targets.values()` in registry (insertion) order. -/
def targetsValues (targets : Targets) : List MicroArchitecture :=
  targets.map Prod.snd

/-- Digit run to number, for the regular-expression capture `(\d+)`. -/
def digitsToNat (ds : List Char) : Nat :=
  ds.foldl (fun n c => n * 10 + (c.toNat - 48)) 0

/-- `re.search(r'POWER(\d+)', s)`: the capture of the first occurrence of
`POWER` immediately followed by at least one digit, or `none` when the
pattern occurs nowhere in `s`. -/
def reSearchPOWER (s : String) : Option Nat :=
  searchAux s.data
where
  searchAux : List Char → Option Nat
    | [] => none
    | c :: rest =>
      if ['P', 'O', 'W', 'E', 'R'].isPrefixOf (c :: rest) then
        let ds := ((c :: rest).drop 5).takeWhile Char.isDigit
        if ds.isEmpty then searchAux rest else some (digitsToNat ds)
      else searchAux rest

/-- A method call on the result of `re.search`.  When the search failed the
result is `None`, which has no methods at all; when it succeeded the result
is a `re.Match` object, whose capture accessor is `group` — any other
attribute name, in particular the `matches` the source calls, raises
`AttributeError`. -/
def reMatchCall (result : Option Nat) (method : String) (arg : Nat) :
    Except PyErr Nat :=
  match result with
  | none => Except.error (PyErr.attributeError "NoneType" method)
  | some capture =>
    if method == "group" then
      if arg == 1 then Except.ok capture else Except.error PyErr.indexError
    else
      Except.error (PyErr.attributeError "re.Match" method)

/-- `_get_power_target_tester(cpuinfo, basename)`: extracts the generation
number by calling `.matches(1)` on `re.search(r'POWER(\d+)',
cpuinfo.get('cpu', ''))`, then closes over it in `can_use`, which accepts a
target iff the target equals `targets[basename]` or has it among its
ancestors, and the target's generation is at most the detected one. -/
def get_power_target_tester (cpuinfo : List (String × String))
    (basename : String) (targets : Targets) :
    Except PyErr (MicroArchitecture → Except PyErr Bool) := do
  let generation ← reMatchCall
    (reSearchPOWER (dictGetD cpuinfo "cpu" "")) "matches" 1
  Except.ok (fun target => do
    let base ← dictGetExc targets basename
    Except.ok ((pyEq target base || pyIn base target.ancestors) &&
      target.generation ≤ generation))

/-- The detected vendor string on the x86_64 path:
`cpuinfo.get('vendor_id', 'generic')`. -/
def x86DetectedVendor (cpuinfo : List (String × String)) : String :=
  dictGetD cpuinfo "vendor_id" "generic"

/-- The detected flag-token set on the x86_64 path:
`set(cpuinfo.get('flags', '').split())`. -/
def x86DetectedFlags (cpuinfo : List (String × String)) : List String :=
  pySplitWS (dictGetD cpuinfo "flags" "")

/-- `_get_x86_target_tester(cpuinfo, basename)`: closes over the detected
vendor and flag set; `can_use` accepts a target iff the target equals
`targets[basename]` or has it among its ancestors, the target's vendor is
the detected vendor or `"generic"`, and the target's features are a subset
of the detected flags. -/
def get_x86_target_tester (cpuinfo : List (String × String))
    (basename : String) (targets : Targets) :
    MicroArchitecture → Except PyErr Bool :=
  let vendor := x86DetectedVendor cpuinfo
  let features := x86DetectedFlags cpuinfo
  fun target => do
    let base ← dictGetExc targets basename
    Except.ok ((pyEq target base || pyIn base target.ancestors) &&
      (target.vendor == vendor || target.vendor == "generic") &&
      strSetSubset target.features features)

/-- Python `filter(tester, l)` where the tester can raise: evaluates the
tester on every element in order, propagating the first exception, and keeps
the elements on which it returned a truthy value. -/
def filterExc {α : Type} (tester : α → Except PyErr Bool) :
    List α → Except PyErr (List α)
  | [] => Except.ok []
  | x :: xs => do
    let b ← tester x
    let rest ← filterExc tester xs
    Except.ok (if b then x :: rest else rest)

/-- One insertion step of Python's descending sort by key: place `x` before
the first element with a strictly smaller key. -/
def insertDesc {α : Type} (key : α → Nat) (x : α) : List α → List α
  | [] => [x]
  | y :: ys => if key y < key x then x :: y :: ys else y :: insertDesc key x ys

/-- `sorted(l, key=key, reverse=True)`: a sort placing elements of larger
key first. -/
def sortedDesc {α : Type} (key : α → Nat) (l : List α) : List α :=
  l.foldr (insertDesc key) []

/-- Python `l[0]`: `IndexError` on an empty list. -/
def headExc {α : Type} : List α → Except PyErr α
  | [] => Except.error PyErr.indexError
  | x :: _ => Except.ok x

/-- The `if/elif/else` chain of `detect_host` that binds `tester`: x86_64
uses the x86 tester (whose construction cannot itself raise), ppc64 and
ppc64le use the POWER tester (whose construction extracts the generation and
can raise), and any other machine name yields no tester at all. -/
def familyTester (cpuinfo : List (String × String)) (basename : String)
    (targets : Targets) :
    Option (Except PyErr (MicroArchitecture → Except PyErr Bool)) :=
  if basename == "x86_64" then
    some (Except.ok (get_x86_target_tester cpuinfo basename targets))
  else if basename == "ppc64" || basename == "ppc64le" then
    some (get_power_target_tester cpuinfo basename targets)
  else
    none

/-- `detect_host()` with the collected `cpuinfo`, the raw machine name
`platform.machine()` and the registry passed explicitly: with no family
tester it returns `create_generic_march(basename)` without touching the
registry; otherwise it filters `targets.values()` through the tester, sorts
the survivors by decreasing number of ancestors, and returns the first. -/
def detect_host (cpuinfo : List (String × String)) (basename : String)
    (targets : Targets) : Except PyErr MicroArchitecture :=
  match familyTester cpuinfo basename targets with
  | none => Except.ok (create_generic_march basename)
  | some etester => do
    let tester ← etester
    let usable ← filterExc tester (targetsValues targets)
    headExc (sortedDesc (fun t => t.ancestors.length) usable)

/-- The `from` field of a knowledge-base record: absent/`null`, a single
parent name, or a list of parent names. -/
inductive FromVal where
  | null
  | one (s : String)
  | many (l : List String)

/-- One record of the declarative knowledge base `targets.json`:
`{from, vendor?, features, compilers?, generation?}` with the `.get`
defaults for `compilers` (`{}`) and `generation` (`0`) already applied;
`vendor` keeps its optionality because an unspecified vendor is inherited
from the first parent. -/
structure TargetData where
  fromv : FromVal
  vendor : Option String
  features : List String
  compilers : List (String × String)
  generation : Nat

/-- The normalization of `values['from']` at the top of
`fill_target_from_dict`: a string becomes a one-element list, `None` becomes
the empty list. -/
def parentNames (values : TargetData) : List String :=
  match values.fromv with
  | FromVal.null => []
  | FromVal.one s => [s]
  | FromVal.many l => l

/-- The vendor resolution in `fill_target_from_dict`: an explicit
`vendor` value wins (an absent one is modelled as `none`); otherwise
`parents[0].vendor` is read, raising `IndexError` on an empty parent list
and `AttributeError` when `targets.get` produced `None` for the first
parent. -/
def inheritVendor (declared : Option String)
    (parentObjs : List (Option MicroArchitecture)) : Except PyErr String :=
  match declared with
  | some v => Except.ok v
  | none =>
    match parentObjs with
    | [] => Except.error PyErr.indexError
    | none :: _ => Except.error (PyErr.attributeError "NoneType" "vendor")
    | some p :: _ => Except.ok p.vendor

/-- The parent objects handed to `MicroArchitecture.__init__`: a `None`
entry (an unfilled `targets.get(p)`) raises `AttributeError` at the
`parent.ancestors` read inside the constructor. -/
def derefParents (parentObjs : List (Option MicroArchitecture)) :
    Except PyErr (List MicroArchitecture) :=
  parentObjs.mapM (fun po =>
    match po with
    | some p => Except.ok p
    | none => Except.error (PyErr.attributeError "NoneType" "ancestors"))

/-- `fill_target_from_dict(name, data, targets)` generalized to a worklist
of names processed in order (the original call is the singleton list; the
recursion over `[p for p in parents if p not in targets]` is the recursive
call on the filtered parent list).  `fuel` models Python's recursion-depth
limit: each nesting level of the original recursion consumes one unit, and
exhausting it is `RecursionError`.  Each name is processed exactly as in the
source: read `data[name]` (`KeyError` when absent), recursively fill the
parents not yet in `targets`, look the parents up with `targets.get`,
default the vendor to `parents[0].vendor`, and store the freshly constructed
entity under `name`. -/
def fillMany (fuel : Nat) (names : List String)
    (data : List (String × TargetData)) (tg : Targets) :
    Except PyErr Targets :=
  match names with
  | [] => Except.ok tg
  | name :: rest =>
    match fuel with
    | 0 => Except.error PyErr.recursionError
    | fuel' + 1 => do
      let values ← dictGetExc data name
      let tg2 ← fillMany fuel'
        ((parentNames values).filter (fun p => !(containsKey tg p))) data tg
      let vendor ← inheritVendor values.vendor
        ((parentNames values).map (fun p => tg2.lookup p))
      let parents ← derefParents
        ((parentNames values).map (fun p => tg2.lookup p))
      fillMany (fuel' + 1) rest data
        (dictSet tg2 name (MicroArchitecture.init name parents vendor
          values.features values.compilers values.generation))
termination_by (fuel, names.length)

/-- The loop `for name in data:` in `_load_targets_from_json`: skip names
already materialized as someone else's ancestor, otherwise fill them. -/
def loadLoop (fuel : Nat) (bindings : List (String × TargetData))
    (data : List (String × TargetData)) (tg : Targets) :
    Except PyErr Targets :=
  match bindings with
  | [] => Except.ok tg
  | (name, _) :: rest =>
    if containsKey tg name then loadLoop fuel rest data tg
    else do
      let tg2 ← fillMany fuel [name] data tg
      loadLoop fuel rest data tg2

/-- `targets.setdefault(host_platform, create_generic_march(host_platform))`. -/
def setdefaultT (tg : Targets) (k : String) (v : MicroArchitecture) : Targets :=
  if containsKey tg k then tg else tg ++ [(k, v)]

/-- `_load_targets_from_json()` with the parsed JSON content and the host's
raw machine name passed explicitly: fill every record of the source, then
register a generic entity for the host platform when it is absent. -/
def load_targets_from_json (fuel : Nat) (data : List (String × TargetData))
    (host_platform : String) : Except PyErr Targets := do
  let tg ← loadLoop fuel data data []
  Except.ok (setdefaultT tg host_platform (create_generic_march host_platform))

/-- `_create_dict_from_proc()` with the attempted read of `/proc/cpuinfo`
passed explicitly (`Except.error` is an `IOError`, `Except.ok` the list of
lines): an I/O failure returns `None`; otherwise every nonblank line is
split at its first colon and stored stripped, the last occurrence of a key
winning. -/
def create_dict_from_proc (readResult : Except Unit (List String)) :
    Option (List (String × String)) :=
  match readResult with
  | Except.error _ => none
  | Except.ok lines =>
    some (lines.foldl
      (fun cpuinfo line =>
        if (pyStrip line).isEmpty then cpuinfo
        else
          let kv := pyPartition line
          dictSet cpuinfo (pyStrip kv.1) (pyStrip kv.2))
      [])

/-- `_create_dict_from_sysctl()` with the five `sysctl -n` invocations
passed explicitly in program order (`machdep.cpu.vendor`, `.features`,
`.leaf7_features`, `.model`, `.brand_string`).  The `try` block assigns the
collected fields one by one; the first failing invocation aborts the block
and the `except Exception: pass` returns whatever dict was built so far.
When everything succeeds, dotted flag spellings get their underscore/plain
aliases appended. -/
def create_dict_from_sysctl (vendorR flagsR leaf7R modelR brandR :
    Except Unit String) : List (String × String) :=
  match vendorR with
  | Except.error _ => []
  | Except.ok v =>
    let d := dictSet [] "vendor_id" (pyStrip v)
    match flagsR with
    | Except.error _ => d
    | Except.ok fl =>
      let d := dictSet d "flags" (pyLower (pyStrip fl))
      match leaf7R with
      | Except.error _ => d
      | Except.ok l7 =>
        let d := dictSet d "flags"
          (dictGetD d "flags" "" ++ " " ++ pyLower (pyStrip l7))
        match modelR with
        | Except.error _ => d
        | Except.ok mo =>
          let d := dictSet d "model" (pyStrip mo)
          match brandR with
          | Except.error _ => d
          | Except.ok br =>
            let d := dictSet d "model name" (pyStrip br)
            let d := if pyContains (dictGetD d "flags" "") "sse4.1" then
                dictSet d "flags" (dictGetD d "flags" "" ++ " sse4_1")
              else d
            let d := if pyContains (dictGetD d "flags" "") "sse4.2" then
                dictSet d "flags" (dictGetD d "flags" "" ++ " sse4_2")
              else d
            let d := if pyContains (dictGetD d "flags" "") "avx1.0" then
                dictSet d "flags" (dictGetD d "flags" "" ++ " avx")
              else d
            d

/-- Duplicate-freedom of a list of entities under Python equality: no
element compares `__eq__`-equal to a later element. -/
def pyNodup : List MicroArchitecture → Bool
  | [] => true
  | x :: xs => xs.all (fun y => !(pyEq x y)) && pyNodup xs

/-- Helper for `claimedLinearization`: append, for each remaining parent in
order, that parent's ancestors not already present in the accumulated
sequence. -/
def appendParentAncestors (acc : List MicroArchitecture) :
    List MicroArchitecture → List MicroArchitecture
  | [] => acc
  | p :: ps =>
    appendParentAncestors (acc ++ p.ancestors.filter (fun a => !(pyIn a acc))) ps

/-- The ancestors sequence as the claim describes it: the direct parents in
order, followed, for each parent in order, by that parent's ancestors that
are not already present. -/
def claimedLinearization (parents : List MicroArchitecture) :
    List MicroArchitecture :=
  appendParentAncestors parents parents

/-- The x86 compatibility rule in the spec's words: the candidate equals the
registry entry for the raw machine identifier or has it among its ancestors,
its vendor is the detected vendor or `"generic"`, and its features are a
subset of the detected flag tokens. -/
def x86CompatibleSpec (base : MicroArchitecture) (vendor : String)
    (flags : List String) (c : MicroArchitecture) : Prop :=
  (pyEq c base = true ∨ pyIn base c.ancestors = true) ∧
  (c.vendor = vendor ∨ c.vendor = "generic") ∧
  (∀ f ∈ c.features, f ∈ flags)

/-- Concrete fixture: the x86_64 family root. -/
def x86root : MicroArchitecture :=
  MicroArchitecture.init "x86_64" [] "generic" [] [] 0

/-- Concrete fixture: a first-level Intel target descending from the root. -/
def core2 : MicroArchitecture :=
  MicroArchitecture.init "core2" [x86root] "Intel" ["sse2"] [] 0

/-- Concrete fixture: a second-level Intel target. -/
def nehalem : MicroArchitecture :=
  MicroArchitecture.init "nehalem" [core2] "Intel" ["sse2", "sse4_1"] [] 0

/-- Concrete fixture: an AMD target unrelated to `core2`/`nehalem` except
through the shared root. -/
def bulldozer : MicroArchitecture :=
  MicroArchitecture.init "bulldozer" [x86root] "AMD" ["avx"] [] 0

/-- Concrete fixture: a small registry in insertion order. -/
def tinyTargets : Targets :=
  [("x86_64", x86root), ("core2", core2), ("nehalem", nehalem),
    ("bulldozer", bulldozer)]

/-- Concrete fixture: cpuinfo of an Intel host with the `nehalem` flags. -/
def cpuinfoIntel : List (String × String) :=
  [("vendor_id", "Intel"), ("flags", "fpu sse2 sse4_1")]

/-- C10: structural equality is only total between two `MicroArchitecture`
values — for every entity `m` and every string operand `s`, evaluating
`m == s` raises `AttributeError` (the unconditional first read of
`other.name` fails on a `str`) instead of returning `False`. -/
theorem c10_eq_on_non_entity_raises (m : MicroArchitecture) (s : String) :
    pyEqValue m (PyValue.str s) =
      Except.error (PyErr.attributeError "str" "name") :=
  rfl

/-- C4: the claim says `a <= b` and `b >= a` hold when `a` is among
`b.ancestors`, with unrelated pairs raising the typed no-ordering error.
The code, however, defines no ordering dunder method at all, so every
ordering comparison between entities raises the untyped "unsupported
operand" `TypeError` — including on the related pair
`(x86root, nehalem)` with `x86root ∈ nehalem.ancestors`, where its own test
suite expects `True`. -/
theorem c4_all_ordering_comparisons_raise :
    pyIn x86root nehalem.ancestors = true ∧
    pyCompare CmpOp.le x86root nehalem =
      Except.error (PyErr.typeError "unsupported operand type(s) for comparison") ∧
    pyCompare CmpOp.ge nehalem x86root =
      Except.error (PyErr.typeError "unsupported operand type(s) for comparison") ∧
    (∀ op a b, isErr (pyCompare op a b) = true) := by
  refine ⟨by decide, rfl, rfl, ?_⟩
  intro op a b
  cases op <;> rfl

/-- C5: the claim says the POWER generation is extracted from the
`POWER<digits>` pattern and, on success, drives the tester.  The code calls
`.matches(1)` on the `re.Match` object — a method that does not exist — so
tester construction raises `AttributeError` even on the well-formed
descriptor `cpu: POWER9` whose pattern match succeeds with capture 9; no
tester is ever produced for any input. -/
theorem c5_power_tester_construction_always_raises :
    reSearchPOWER "POWER9" = some 9 ∧
    get_power_target_tester [("cpu", "POWER9")] "ppc64le" tinyTargets =
      Except.error (PyErr.attributeError "re.Match" "matches") ∧
    (∀ cpuinfo basename targets,
      isErr (get_power_target_tester cpuinfo basename targets) = true) := by
  refine ⟨by decide, rfl, ?_⟩
  intro cpuinfo basename targets
  unfold get_power_target_tester reMatchCall
  cases reSearchPOWER (dictGetD cpuinfo "cpu" "") <;> rfl

/-- C7: for every raw machine identifier other than `x86_64`, `ppc64` and
`ppc64le`, `detect_host` returns a freshly constructed generic entity named
after the identifier — empty parents and features, vendor `"generic"` — and
the registry plays no role in the result. -/
theorem c7_unknown_family_returns_generic (cpuinfo : List (String × String))
    (basename : String) (targets : Targets)
    (h1 : basename ≠ "x86_64") (h2 : basename ≠ "ppc64")
    (h3 : basename ≠ "ppc64le") :
    detect_host cpuinfo basename targets =
      Except.ok (create_generic_march basename) ∧
    (create_generic_march basename).name = basename ∧
    (create_generic_march basename).parents = [] ∧
    (create_generic_march basename).features = [] ∧
    (create_generic_march basename).vendor = "generic" ∧
    ∀ targets2, detect_host cpuinfo basename targets2 =
      detect_host cpuinfo basename targets := by
  have hfam : ∀ tg : Targets, familyTester cpuinfo basename tg = none := by
    intro tg
    simp [familyTester, h1, h2, h3]
  refine ⟨?_, rfl, rfl, rfl, rfl, ?_⟩
  · simp [detect_host, hfam]
  · intro targets2
    simp [detect_host, hfam]

/-- C7 witness at the concrete identifier `aarch64`. -/
theorem c7_unknown_family_returns_generic_witness :
    detect_host [] "aarch64" tinyTargets =
      Except.ok (create_generic_march "aarch64") :=
  (c7_unknown_family_returns_generic [] "aarch64" tinyTargets
    (by decide) (by decide) (by decide)).1

/-- C9: the raw descriptor collector never propagates an exception.  On the
Linux path an I/O failure reading `/proc/cpuinfo` yields `None`; on the
Darwin path a failure of any of the five `sysctl` invocations yields exactly
the partial mapping collected before the failing call. -/
theorem c9_collector_degrades_gracefully :
    (∀ e : Unit, create_dict_from_proc (Except.error e) = none) ∧
    (∀ (e : Unit) (fl l7 mo br : Except Unit String),
      create_dict_from_sysctl (Except.error e) fl l7 mo br = []) ∧
    (∀ (e : Unit) (v : String) (l7 mo br : Except Unit String),
      create_dict_from_sysctl (Except.ok v) (Except.error e) l7 mo br =
        [("vendor_id", pyStrip v)]) ∧
    (∀ (e : Unit) (v fl : String) (mo br : Except Unit String),
      create_dict_from_sysctl (Except.ok v) (Except.ok fl) (Except.error e)
          mo br =
        [("vendor_id", pyStrip v), ("flags", pyLower (pyStrip fl))]) ∧
    (∀ (e : Unit) (v fl l7 : String) (br : Except Unit String),
      create_dict_from_sysctl (Except.ok v) (Except.ok fl) (Except.ok l7)
          (Except.error e) br =
        [("vendor_id", pyStrip v),
          ("flags", pyLower (pyStrip fl) ++ " " ++ pyLower (pyStrip l7))]) ∧
    (∀ (e : Unit) (v fl l7 mo : String),
      create_dict_from_sysctl (Except.ok v) (Except.ok fl) (Except.ok l7)
          (Except.ok mo) (Except.error e) =
        [("vendor_id", pyStrip v),
          ("flags", pyLower (pyStrip fl) ++ " " ++ pyLower (pyStrip l7)),
          ("model", pyStrip mo)]) := by
  refine ⟨fun e => rfl, fun e fl l7 mo br => rfl, fun e v l7 mo br => rfl,
    ?_, ?_, ?_⟩ <;> intros <;> rfl

/-- C6: `architecture_family` returns the unique parentless member of
`{e} ∪ e.ancestors` when there is exactly one, and fails with the assertion
error whenever more than one parentless member occurs there. -/
theorem c6_architecture_family_unique_root (e : MicroArchitecture) :
    (∀ r, rootsOf e = [r] →
      architecture_family e = Except.ok r ∧
      r ∈ e :: e.ancestors ∧ r.ancestors = [] ∧
      ∀ x ∈ e :: e.ancestors, x.ancestors = [] → x = r) ∧
    (2 ≤ (rootsOf e).length →
      architecture_family e = Except.error PyErr.assertionError) := by
  constructor
  · intro r hr
    have hmem : r ∈ rootsOf e := by rw [hr]; exact List.mem_singleton_self r
    have hprop := List.mem_filter.mp hmem
    refine ⟨by rw [architecture_family, hr], hprop.1,
      List.isEmpty_iff.mp (by simpa using hprop.2), ?_⟩
    intro x hx hxanc
    have : x ∈ rootsOf e := by
      refine List.mem_filter.mpr ⟨hx, ?_⟩
      simp [hxanc]
    rw [hr] at this
    exact List.mem_singleton.mp this
  · intro hlen
    rw [architecture_family]
    match hroots : rootsOf e with
    | [] => rfl
    | [r] => rw [hroots] at hlen; simp at hlen
    | a :: b :: rest => rfl

/-- C6 witness: `nehalem`'s family resolves to the unique root `x86root`. -/
theorem c6_architecture_family_unique_root_witness :
    architecture_family nehalem = Except.ok x86root ∧
    x86root.ancestors = [] :=
  ⟨((c6_architecture_family_unique_root nehalem).1 x86root rfl).1,
    ((c6_architecture_family_unique_root nehalem).1 x86root rfl).2.2.1⟩

/-- C2: with the registry entry `base` for the raw machine identifier, the
x86 tester accepts a candidate iff the candidate equals `base` or has it
among its ancestors, its vendor is the detected one or `"generic"`, and its
features are a subset of the detected flag tokens. -/
theorem c2_x86_tester_iff (cpuinfo : List (String × String))
    (basename : String) (targets : Targets) (base c : MicroArchitecture)
    (hb : List.lookup basename targets = some base) :
    get_x86_target_tester cpuinfo basename targets c = Except.ok true ↔
    x86CompatibleSpec base (x86DetectedVendor cpuinfo)
      (x86DetectedFlags cpuinfo) c := by
  rw [get_x86_target_tester, x86CompatibleSpec]
  simp only [dictGetExc, hb, bind, Except.bind, Except.ok.injEq]
  rw [Bool.and_eq_true, Bool.and_eq_true, Bool.or_eq_true, Bool.or_eq_true]
  simp [strSetSubset, List.all_eq_true, beq_iff_eq, and_assoc]

/-- C2 witness: on the Intel fixture descriptor, `nehalem` satisfies the
tester via the spec-side characterization. -/
theorem c2_x86_tester_iff_witness :
    get_x86_target_tester cpuinfoIntel "x86_64" tinyTargets nehalem =
      Except.ok true :=
  (c2_x86_tester_iff cpuinfoIntel "x86_64" tinyTargets x86root nehalem
    rfl).mpr ⟨Or.inr (by decide), Or.inl rfl, by decide⟩

theorem pyNodup_iff_pairwise (l : List MicroArchitecture) :
    pyNodup l = true ↔ l.Pairwise (fun a b => pyEq a b = false) := by
  induction l with
  | nil => simp [pyNodup]
  | cons x xs ih =>
    simp [pyNodup, List.pairwise_cons, ih, List.all_eq_true, and_comm]

theorem pyIn_eq_false_iff (a : MicroArchitecture)
    (l : List MicroArchitecture) :
    pyIn a l = false ↔ ∀ x ∈ l, pyEq x a = false := by
  simp [pyIn, List.any_eq_true]

theorem appendParentAncestors_eq_foldl (ps : List MicroArchitecture) :
    ∀ acc, appendParentAncestors acc ps =
      ps.foldl
        (fun acc p => acc ++ p.ancestors.filter (fun a => !(pyIn a acc)))
        acc := by
  induction ps with
  | nil => intro acc; rfl
  | cons p ps ih => intro acc; rw [appendParentAncestors, List.foldl_cons, ih]

theorem appendParentAncestors_pairwise (ps : List MicroArchitecture) :
    ∀ acc, acc.Pairwise (fun a b => pyEq a b = false) →
      (∀ p ∈ ps, p.ancestors.Pairwise (fun a b => pyEq a b = false)) →
      (appendParentAncestors acc ps).Pairwise (fun a b => pyEq a b = false) := by
  induction ps with
  | nil => intro acc hacc _; exact hacc
  | cons p ps ih =>
    intro acc hacc hanc
    rw [appendParentAncestors]
    refine ih _ ?_ (fun q hq => hanc q (List.mem_cons_of_mem p hq))
    rw [List.pairwise_append]
    refine ⟨hacc, List.Pairwise.sublist (List.filter_sublist _)
      (hanc p (List.mem_cons_self p ps)), ?_⟩
    intro x hx y hy
    have hyf := List.of_mem_filter hy
    have hfalse : pyIn y acc = false := by simpa using hyf
    exact (pyIn_eq_false_iff y acc).mp hfalse x hx

/-- C3 counterexample: constructing an entity whose direct parents list
contains the same parent twice copies the duplicate into `ancestors`, so the
produced sequence is not duplicate-free as the claim asserts. -/
theorem c3_counterexample :
    ¬ (pyNodup (MicroArchitecture.init "x"
        [create_generic_march "g", create_generic_march "g"]
        "vendor" [] [] 0).ancestors = true) := by
  decide

/-- C3 (amended): constructing a `MicroArchitecture` produces an ancestors
sequence equal to the direct parents in order followed, for each parent in
order, by that parent's ancestors not already present; provided the direct
parents are pairwise distinct and each parent's own ancestors sequence is
duplicate-free, the result is a duplicate-free linearization. -/
theorem c3_ancestors_linearization (name : String)
    (parents : List MicroArchitecture) (vendor : String)
    (features : List String) (compilers : List (String × String))
    (generation : Nat)
    (h1 : pyNodup parents = true)
    (h2 : ∀ p ∈ parents, pyNodup p.ancestors = true) :
    (MicroArchitecture.init name parents vendor features compilers
        generation).ancestors = claimedLinearization parents ∧
    pyNodup (MicroArchitecture.init name parents vendor features compilers
        generation).ancestors = true := by
  have heq : (MicroArchitecture.init name parents vendor features compilers
      generation).ancestors = claimedLinearization parents := by
    rw [MicroArchitecture.init, claimedLinearization,
      appendParentAncestors_eq_foldl]
    rfl
  refine ⟨heq, ?_⟩
  rw [heq, claimedLinearization]
  exact (pyNodup_iff_pairwise _).mpr
    (appendParentAncestors_pairwise parents parents
      ((pyNodup_iff_pairwise parents).mp h1)
      (fun p hp => (pyNodup_iff_pairwise p.ancestors).mp (h2 p hp)))

/-- C3 witness at a concrete construction with one parent. -/
theorem c3_ancestors_linearization_witness :
    (MicroArchitecture.init "w" [core2] "Intel" [] [] 0).ancestors =
      claimedLinearization [core2] ∧
    pyNodup (MicroArchitecture.init "w" [core2] "Intel" [] [] 0).ancestors =
      true :=
  c3_ancestors_linearization "w" [core2] "Intel" [] [] 0
    (by decide) (by decide)

theorem insertDesc_mem {α : Type} (key : α → Nat) (x : α) (l : List α)
    (y : α) : y ∈ insertDesc key x l ↔ y = x ∨ y ∈ l := by
  induction l with
  | nil => simp [insertDesc]
  | cons z zs ih =>
    rw [insertDesc]
    by_cases h : key z < key x
    · simp [h]
    · simp [h, ih, List.mem_cons, or_left_comm]

theorem sortedDesc_mem {α : Type} (key : α → Nat) (l : List α) (y : α) :
    y ∈ sortedDesc key l ↔ y ∈ l := by
  induction l with
  | nil => simp [sortedDesc]
  | cons x xs ih =>
    show y ∈ insertDesc key x (sortedDesc key xs) ↔ _
    rw [insertDesc_mem, ih, List.mem_cons]

theorem sortedDesc_head_max {α : Type} (key : α → Nat) (l : List α)
    (h : l ≠ []) :
    ∃ m rest, sortedDesc key l = m :: rest ∧ m ∈ l ∧
      ∀ y ∈ l, key y ≤ key m := by
  induction l with
  | nil => exact absurd rfl h
  | cons x xs ih =>
    cases xs with
    | nil => exact ⟨x, [], rfl, List.mem_singleton_self x, by simp⟩
    | cons z zs =>
      obtain ⟨m, rest, heq, hmem, hmax⟩ := ih (List.cons_ne_nil z zs)
      have hstep : sortedDesc key (x :: z :: zs) =
          insertDesc key x (m :: rest) := by
        show insertDesc key x (sortedDesc key (z :: zs)) = _
        rw [heq]
      rw [insertDesc] at hstep
      by_cases hk : key m < key x
      · rw [if_pos hk] at hstep
        refine ⟨x, m :: rest, hstep, List.mem_cons_self x _, ?_⟩
        intro y hy
        rcases List.mem_cons.mp hy with hyx | hyxs
        · rw [hyx]
        · exact le_trans (hmax y hyxs) (le_of_lt hk)
      · rw [if_neg hk] at hstep
        refine ⟨m, insertDesc key x rest, hstep,
          List.mem_cons_of_mem x hmem, ?_⟩
        intro y hy
        rcases List.mem_cons.mp hy with hyx | hyxs
        · rw [hyx]; exact le_of_not_lt hk
        · exact hmax y hyxs

theorem filterExc_ok_mem {α : Type} (p : α → Except PyErr Bool) :
    ∀ (l l' : List α), filterExc p l = Except.ok l' →
      ∀ x, x ∈ l' ↔ x ∈ l ∧ p x = Except.ok true := by
  intro l
  induction l with
  | nil =>
    intro l' h x
    rw [filterExc] at h
    cases h
    simp
  | cons y ys ih =>
    intro l' h x
    rw [filterExc] at h
    cases hy : p y with
    | error e => rw [hy] at h; exact absurd h (by simp [Bind.bind, Except.bind])
    | ok b =>
      rw [hy] at h
      cases hr : filterExc p ys with
      | error e =>
        rw [hr] at h
        exact absurd h (by simp [Bind.bind, Except.bind])
      | ok rest =>
        rw [hr] at h
        simp only [Bind.bind, Except.bind, Except.ok.injEq] at h
        subst h
        cases b with
        | true =>
          have hl : (if (true : Bool) then y :: rest else rest) = y :: rest :=
            rfl
          rw [hl]
          simp only [List.mem_cons, ih rest hr x]
          constructor
          · rintro (hxy | ⟨hmem, htrue⟩)
            · exact ⟨Or.inl hxy, by rw [hxy]; exact hy⟩
            · exact ⟨Or.inr hmem, htrue⟩
          · rintro ⟨hxy | hmem, htrue⟩
            · exact Or.inl hxy
            · exact Or.inr ⟨hmem, htrue⟩
        | false =>
          have hl : (if (false : Bool) then y :: rest else rest) = rest := rfl
          rw [hl]
          simp only [List.mem_cons, ih rest hr x]
          constructor
          · rintro ⟨hmem, htrue⟩
            exact ⟨Or.inr hmem, htrue⟩
          · rintro ⟨hxy | hmem, htrue⟩
            · rw [hxy, hy] at htrue; cases htrue
            · exact ⟨hmem, htrue⟩

theorem filterExc_total {α : Type} (p : α → Except PyErr Bool) :
    ∀ l : List α, (∀ x ∈ l, ∃ b, p x = Except.ok b) →
      ∃ l', filterExc p l = Except.ok l' := by
  intro l
  induction l with
  | nil => intro _; exact ⟨[], rfl⟩
  | cons y ys ih =>
    intro h
    obtain ⟨b, hb⟩ := h y (List.mem_cons_self y ys)
    obtain ⟨rest, hrest⟩ := ih (fun x hx => h x (List.mem_cons_of_mem y hx))
    refine ⟨if b then y :: rest else rest, ?_⟩
    rw [filterExc, hb, hrest]
    rfl

theorem x86_tester_total (cpuinfo : List (String × String))
    (basename : String) (targets : Targets) (base : MicroArchitecture)
    (hb : List.lookup basename targets = some base) :
    ∀ t, ∃ b, get_x86_target_tester cpuinfo basename targets t =
      Except.ok b := by
  intro t
  refine ⟨(pyEq t base || pyIn base t.ancestors) &&
    ((t.vendor == x86DetectedVendor cpuinfo) || (t.vendor == "generic")) &&
    strSetSubset t.features (x86DetectedFlags cpuinfo), ?_⟩
  rw [get_x86_target_tester]
  simp [dictGetExc, hb, Bind.bind, Except.bind]

/-- C1: whenever a family tester was derived for the raw machine identifier,
the tester raises on no registry value, and at least one registry value
satisfies it, `detect_host` returns a satisfying entity whose `ancestors`
sequence is at least as long as that of every other satisfying entity. -/
theorem c1_detect_host_most_specific (cpuinfo : List (String × String))
    (basename : String) (targets : Targets)
    (tester : MicroArchitecture → Except PyErr Bool)
    (t0 : MicroArchitecture)
    (hfam : familyTester cpuinfo basename targets = some (Except.ok tester))
    (hok : ∀ t ∈ targetsValues targets, ∃ b, tester t = Except.ok b)
    (ht0 : t0 ∈ targetsValues targets) (hq : tester t0 = Except.ok true) :
    ∃ r, detect_host cpuinfo basename targets = Except.ok r ∧
      r ∈ targetsValues targets ∧ tester r = Except.ok true ∧
      ∀ t ∈ targetsValues targets, tester t = Except.ok true →
        t.ancestors.length ≤ r.ancestors.length := by
  obtain ⟨usable, husable⟩ := filterExc_total tester (targetsValues targets) hok
  have hmemiff := filterExc_ok_mem tester (targetsValues targets) usable husable
  have ht0u : t0 ∈ usable := (hmemiff t0).mpr ⟨ht0, hq⟩
  obtain ⟨m, rest, hsorted, hmem, hmax⟩ :=
    sortedDesc_head_max (fun t => t.ancestors.length) usable
      (List.ne_nil_of_mem ht0u)
  refine ⟨m, ?_, ((hmemiff m).mp hmem).1, ((hmemiff m).mp hmem).2, ?_⟩
  · rw [detect_host, hfam]
    simp only [Bind.bind, Except.bind, husable, hsorted, headExc]
  · intro t htv htq
    exact hmax t ((hmemiff t).mpr ⟨htv, htq⟩)

/-- C1 witness: on the Intel fixture host the x86 family tester is derived,
raises nowhere on the fixture registry, and `detect_host` picks the most
specific satisfying entity. -/
theorem c1_detect_host_most_specific_witness :
    ∃ r, detect_host cpuinfoIntel "x86_64" tinyTargets = Except.ok r ∧
      r ∈ targetsValues tinyTargets ∧
      get_x86_target_tester cpuinfoIntel "x86_64" tinyTargets r =
        Except.ok true ∧
      ∀ t ∈ targetsValues tinyTargets,
        get_x86_target_tester cpuinfoIntel "x86_64" tinyTargets t =
          Except.ok true →
        t.ancestors.length ≤ r.ancestors.length :=
  c1_detect_host_most_specific cpuinfoIntel "x86_64" tinyTargets
    (get_x86_target_tester cpuinfoIntel "x86_64" tinyTargets) nehalem rfl
    (fun t _ => x86_tester_total cpuinfoIntel "x86_64" tinyTargets x86root
      rfl t)
    (show nehalem ∈ [x86root, core2, nehalem, bulldozer] from
      List.mem_cons_of_mem _ (List.mem_cons_of_mem _
        (List.mem_cons_self _ _)))
    rfl

theorem isErr_bind_of_isErr {β γ : Type} (e : Except PyErr β)
    (f : β → Except PyErr γ) (h : isErr e = true) : isErr (e >>= f) = true := by
  cases e with
  | error _ => rfl
  | ok b => simp [isErr] at h

theorem isErr_bind {β γ : Type} (e : Except PyErr β) (f : β → Except PyErr γ)
    (h : ∀ b, e = Except.ok b → isErr (f b) = true) : isErr (e >>= f) = true := by
  cases e with
  | error _ => rfl
  | ok b =>
    show isErr (f b) = true
    exact h b rfl

theorem bind_ok_elim {β γ : Type} (e : Except PyErr β)
    (f : β → Except PyErr γ) (c : γ) (h : (e >>= f) = Except.ok c) :
    ∃ b, e = Except.ok b ∧ f b = Except.ok c := by
  cases e with
  | error _ => exact absurd h (by simp [Bind.bind, Except.bind])
  | ok b => exact ⟨b, rfl, h⟩

theorem lookup_mem {β : Type} (l : List (String × β)) (k : String) (v : β)
    (h : List.lookup k l = some v) : (k, v) ∈ l := by
  induction l with
  | nil => cases h
  | cons kv rest ih =>
    obtain ⟨k', v'⟩ := kv
    rw [List.lookup] at h
    cases hkk : (k == k') with
    | true =>
      rw [hkk] at h
      injection h with hv
      have hk : k = k' := eq_of_beq hkk
      rw [← hk, ← hv]
      exact List.mem_cons_self _ _
    | false =>
      rw [hkk] at h
      exact List.mem_cons_of_mem _ (ih h)

theorem containsKey_dictSet {β : Type} (tg : List (String × β))
    (name k : String) (v : β) :
    containsKey (dictSet tg name v) k = (containsKey tg k || (name == k)) := by
  induction tg with
  | nil => simp [dictSet, containsKey]
  | cons kv rest ih =>
    obtain ⟨k', v'⟩ := kv
    rw [dictSet]
    cases hkk : (k' == name) with
    | true =>
      rw [if_pos rfl]
      have hk : k' = name := eq_of_beq hkk
      rw [hk]
      simp only [containsKey, List.any_cons]
      cases (name == k) <;> cases rest.any (fun x => x.1 == k) <;> rfl
    | false =>
      rw [if_neg (by simp [hkk])]
      simp only [containsKey, List.any_cons] at ih ⊢
      rw [ih]
      cases (k' == k) <;> cases rest.any (fun x => x.1 == k) <;>
        cases (name == k) <;> rfl

theorem fillMany_err_of_missing (p0 : String)
    (data : List (String × TargetData))
    (h3 : List.lookup p0 data = none) :
    ∀ (names : List String) (fuel : Nat) (tg : Targets), p0 ∈ names →
      isErr (fillMany fuel names data tg) = true := by
  intro names
  induction names with
  | nil => intro fuel tg h; cases h
  | cons name rest ih =>
    intro fuel tg hmem
    cases fuel with
    | zero => rw [fillMany]; rfl
    | succ fuel' =>
      rcases List.mem_cons.mp hmem with heq | hrest
      · subst heq
        have hval : dictGetExc data p0 = Except.error (PyErr.keyError p0) := by
          rw [dictGetExc, h3]
        rw [fillMany, hval]
        rfl
      · rw [fillMany]
        apply isErr_bind
        intro values _
        apply isErr_bind
        intro tg2 _
        apply isErr_bind
        intro vd _
        apply isErr_bind
        intro parents _
        exact ih (fuel' + 1) _ hrest

theorem fillMany_preserves (data : List (String × TargetData))
    (n0 : String) (rec0 : TargetData) (p0 : String)
    (h1 : List.lookup n0 data = some rec0)
    (h2 : p0 ∈ parentNames rec0)
    (h3 : List.lookup p0 data = none) :
    ∀ (fuel : Nat) (names : List String) (tg tg' : Targets),
      containsKey tg p0 = false → containsKey tg n0 = false →
      fillMany fuel names data tg = Except.ok tg' →
      containsKey tg' p0 = false ∧ containsKey tg' n0 = false := by
  intro fuel
  induction fuel with
  | zero =>
    intro names tg tg' hp hn hok
    cases names with
    | nil =>
      rw [fillMany] at hok
      injection hok with h
      rw [← h]
      exact ⟨hp, hn⟩
    | cons name rest =>
      rw [fillMany] at hok
      cases hok
  | succ fuel' ihf =>
    intro names
    induction names with
    | nil =>
      intro tg tg' hp hn hok
      rw [fillMany] at hok
      injection hok with h
      rw [← h]
      exact ⟨hp, hn⟩
    | cons name rest ihn =>
      intro tg tg' hp hn hok
      rw [fillMany] at hok
      obtain ⟨values, hval, hok2⟩ := bind_ok_elim _ _ _ hok
      obtain ⟨tg2, htg2, hok3⟩ := bind_ok_elim _ _ _ hok2
      obtain ⟨vd, hvd, hok4⟩ := bind_ok_elim _ _ _ hok3
      obtain ⟨parents, hpar, hok5⟩ := bind_ok_elim _ _ _ hok4
      have hinv2 := ihf _ tg tg2 hp hn htg2
      have hnp : name ≠ p0 := by
        intro h
        rw [h, dictGetExc, h3] at hval
        cases hval
      have hnn : name ≠ n0 := by
        intro h
        rw [h, dictGetExc, h1] at hval
        injection hval with hv
        have hpf : p0 ∈ (parentNames values).filter
            (fun p => !(containsKey tg p)) := by
          rw [← hv]
          exact List.mem_filter.mpr ⟨h2, by rw [hp]; rfl⟩
        have herr := fillMany_err_of_missing p0 data h3 _ fuel' tg hpf
        rw [htg2] at herr
        simp [isErr] at herr
      have hp3 : containsKey (dictSet tg2 name (MicroArchitecture.init name
          parents vd values.features values.compilers values.generation))
          p0 = false := by
        rw [containsKey_dictSet, hinv2.1, beq_eq_false_iff_ne.mpr hnp]
        rfl
      have hn3 : containsKey (dictSet tg2 name (MicroArchitecture.init name
          parents vd values.features values.compilers values.generation))
          n0 = false := by
        rw [containsKey_dictSet, hinv2.2, beq_eq_false_iff_ne.mpr hnn]
        rfl
      exact ihn _ tg' hp3 hn3 hok5

theorem loadLoop_err (data : List (String × TargetData))
    (n0 : String) (rec0 : TargetData) (p0 : String)
    (h1 : List.lookup n0 data = some rec0)
    (h2 : p0 ∈ parentNames rec0)
    (h3 : List.lookup p0 data = none) :
    ∀ (bindings : List (String × TargetData)) (fuel : Nat) (tg : Targets),
      containsKey tg p0 = false → containsKey tg n0 = false →
      (∃ recx, (n0, recx) ∈ bindings) →
      isErr (loadLoop fuel bindings data tg) = true := by
  intro bindings
  induction bindings with
  | nil =>
    intro fuel tg hp hn hex
    obtain ⟨recx, hm⟩ := hex
    cases hm
  | cons b rest ih =>
    obtain ⟨name, r⟩ := b
    intro fuel tg hp hn hex
    obtain ⟨recx, hm⟩ := hex
    rw [loadLoop]
    by_cases hc : containsKey tg name = true
    · rw [if_pos hc]
      have hne : name ≠ n0 := by
        intro h
        rw [h, hn] at hc
        cases hc
      have hmem : (n0, recx) ∈ rest := by
        rcases List.mem_cons.mp hm with hhd | htl
        · exact absurd (congrArg Prod.fst hhd).symm hne
        · exact htl
      exact ih fuel tg hp hn ⟨recx, hmem⟩
    · rw [if_neg hc]
      by_cases hnn : name = n0
      · subst hnn
        have herr : isErr (fillMany fuel [name] data tg) = true := by
          cases fuel with
          | zero => rw [fillMany]; rfl
          | succ fuel' =>
            rw [fillMany]
            apply isErr_bind
            intro values hval
            rw [dictGetExc, h1] at hval
            injection hval with hv
            apply isErr_bind
            intro tg2 htg2
            have hpf : p0 ∈ (parentNames values).filter
                (fun p => !(containsKey tg p)) := by
              rw [← hv]
              exact List.mem_filter.mpr ⟨h2, by rw [hp]; rfl⟩
            have := fillMany_err_of_missing p0 data h3 _ fuel' tg hpf
            rw [htg2] at this
            simp [isErr] at this
        exact isErr_bind_of_isErr _ _ herr
      · cases hf : fillMany fuel [name] data tg with
        | error e => rfl
        | ok tg2 =>
          have hinv := fillMany_preserves data n0 rec0 p0 h1 h2 h3
            fuel [name] tg tg2 hp hn hf
          have hmem : (n0, recx) ∈ rest := by
            rcases List.mem_cons.mp hm with hhd | htl
            · exact absurd (congrArg Prod.fst hhd).symm hnn
            · exact htl
          show isErr (loadLoop fuel rest data tg2) = true
          exact ih fuel tg2 hinv.1 hinv.2 ⟨recx, hmem⟩

/-- C8: whenever some record of the declarative source names a parent that
is absent from the source, `_load_targets_from_json` fails with an error
instead of skipping the reference or producing a partial registry. -/
theorem c8_loader_missing_parent_fails (fuel : Nat)
    (data : List (String × TargetData)) (host : String)
    (n0 : String) (rec0 : TargetData) (p0 : String)
    (h1 : List.lookup n0 data = some rec0)
    (h2 : p0 ∈ parentNames rec0)
    (h3 : List.lookup p0 data = none) :
    isErr (load_targets_from_json fuel data host) = true := by
  rw [load_targets_from_json]
  exact isErr_bind_of_isErr _ _
    (loadLoop_err data n0 rec0 p0 h1 h2 h3 data fuel [] rfl rfl
      ⟨rec0, lookup_mem data n0 rec0 h1⟩)

/-- C8 witness: a one-record source whose record names the absent parent
`missing` makes the loader fail. -/
theorem c8_loader_missing_parent_fails_witness :
    isErr (load_targets_from_json 4
      [("a", ⟨FromVal.one "missing", some "v", [], [], 0⟩)] "host") = true :=
  c8_loader_missing_parent_fails 4
    [("a", ⟨FromVal.one "missing", some "v", [], [], 0⟩)] "host"
    "a" ⟨FromVal.one "missing", some "v", [], [], 0⟩ "missing"
    rfl (List.mem_singleton_self "missing") rfl

end SpackCpu
